import Mathlib

/-!
Shallow embedding of `prompt.py`: a zsh/bash prompt renderer.

Strings are modelled as Lean `String` (Python `str` indexes by codepoint,
as does Lean's `String.drop`/`take`).  Python integers are `Int`.
Python dictionaries used as prompt "parts" (keys `text`, `foreground`,
`background` plus boolean style keys) are modelled as a structure whose
three poppable keys are `Option`-valued: `none` models an absent key.
Exceptions are modelled with `Except PyErr`.
-/

set_option maxRecDepth 100000

namespace Prompt

/-- Python exceptions that the program can raise: `ValueError` (raised by the
porcelain parser and by `int()`, and caught in `get_vcs_info`; also raised by
`parts_assembler` for an invalid side) and `IndexError` (from out-of-range
sequence indexing; never caught). -/
inductive PyErr where
  | valueError (msg : String)
  | indexError
  deriving Repr, DecidableEq

instance {ε α : Type} [DecidableEq ε] [DecidableEq α] :
    DecidableEq (Except ε α) := fun x y =>
  match x, y with
  | .ok a, .ok b =>
    if h : a = b then isTrue (by rw [h]) else isFalse (by simp [h])
  | .error a, .error b =>
    if h : a = b then isTrue (by rw [h]) else isFalse (by simp [h])
  | .ok _, .error _ => isFalse (by simp)
  | .error _, .ok _ => isFalse (by simp)

/-- The fixed color set of the program (the keys of the `_foreground` and
`_background` dictionaries). -/
inductive Color where
  | black | red | green | yellow | blue | magenta | cyan | white
  deriving Repr, DecidableEq

open Color

/-- Foreground ANSI code table of `_foreground`. -/
def fgCode : Color → String
  | black => "\x1b[30m"
  | red => "\x1b[31m"
  | green => "\x1b[32m"
  | yellow => "\x1b[33m"
  | blue => "\x1b[34m"
  | magenta => "\x1b[35m"
  | cyan => "\x1b[36m"
  | white => "\x1b[37m"

/-- Background ANSI code table of `_background`. -/
def bgCode : Color → String
  | black => "\x1b[40m"
  | red => "\x1b[41m"
  | green => "\x1b[42m"
  | yellow => "\x1b[43m"
  | blue => "\x1b[44m"
  | magenta => "\x1b[45m"
  | cyan => "\x1b[46m"
  | white => "\x1b[47m"

-- Constants of the source file.
def SEP_R : String := ""
def SEP_L : String := ""
def SPACER : Char := '·'
def CHEVRON : String := ""
def USER_PLACEHOLDER : String := " "
def BRANCH_SYMBOL : String := ""
def DIR_SYMBOL : String := ""
def VENV_SYMBOL : String := ""
def GIT_AHEAD : String := "↑"
def GIT_BEHIND : String := "↓"
def GIT_STAGED : String := "+"
def GIT_UNSTAGED : String := "~"
def GIT_UNTRACKED : String := "?"
def GIT_STASHED : String := "*"
def MAX_PATH_LENGTH : Int := 70

-- Default section colors (the `os.getenv(..., default)` defaults; the
-- environment override is outside the model).
def USER_FG : Color := black
def USER_BG : Color := white
def PATH_FG : Color := white
def PATH_BG : Color := blue
def VENV_FG : Color := black
def VENV_BG : Color := magenta

/-- `_zero_width`: wrap a string in the zsh zero-width markers. -/
def zero_width (s : String) : String := "%\x7b" ++ s ++ "%\x7d"

/-- `_foreground`. -/
def foregroundStyled (s : String) (color : Color) : String :=
  zero_width (fgCode color) ++ s

/-- `_background`. -/
def backgroundStyled (s : String) (color : Color) : String :=
  zero_width (bgCode color) ++ s

/-- `_bold`. -/
def boldStyled (s : String) : String := zero_width "\x1b[1m" ++ s

/-- `_quick_bold`. -/
def quick_bold (s : String) : String := boldStyled s ++ zero_width "\x1b[22m"

/-- `_underline`. -/
def underlineStyled (s : String) : String := zero_width "\x1b[4m" ++ s

/-- `_reverse`. -/
def reverseStyled (s : String) : String := zero_width "\x1b[7m" ++ s

/-- `_reset`. -/
def resetStyled (s : String) : String := s ++ zero_width "\x1b[0m"

/-- `_newline`. -/
def newlineMark : String := zero_width "\n"

/-- `style`: wrap a string in the given colors/attributes, resetting at the
end; an empty string is returned unchanged. -/
def style (s : String) (fg bg : Option Color) (bold underline rev : Bool) :
    String :=
  if s = "" then s
  else
    let s := match fg with | some c => foregroundStyled s c | none => s
    let s := match bg with | some c => backgroundStyled s c | none => s
    let s := if bold then boldStyled s else s
    let s := if underline then underlineStyled s else s
    let s := if rev then reverseStyled s else s
    resetStyled s

-- The printable-length machinery: `printable_length` first removes every
-- match of the regex `\x1b\[[0-9;]*m`, then every match of the (non-greedy,
-- newline-excluded) regex matching a percent-brace zero-width group, and
-- takes the length of what remains.  Both substitutions are implemented as
-- left-to-right scans over the character list, with an explicit fuel
-- argument (one unit per scan position) so the functions are structurally
-- recursive.

/-- Match the tail of an ANSI escape: consume characters in `[0-9;]` until a
literal `m`; return the remainder on success. -/
def takeAnsiBody : List Char → Option (List Char)
  | [] => none
  | c :: r =>
    if c = 'm' then some r
    else if c.isDigit || c = ';' then takeAnsiBody r
    else none

/-- Fueled scan removing every ANSI color/attribute escape. -/
def stripAnsiF : Nat → List Char → List Char
  | 0, l => l
  | _, [] => []
  | fuel + 1, c :: rest =>
    if c = '\x1b' ∧ rest.head? = some '[' then
      match takeAnsiBody rest.tail with
      | some r' => stripAnsiF fuel r'
      | none => c :: stripAnsiF fuel rest
    else c :: stripAnsiF fuel rest

/-- Remove every ANSI color/attribute escape (the first regex substitution
of `printable_length`). -/
def stripAnsi (l : List Char) : List Char := stripAnsiF l.length l

/-- Find the end of a zero-width group: scan for the first percent-brace
close pair, failing on a newline (the regex dot does not cross lines). -/
def findZWEnd : List Char → Option (List Char)
  | [] => none
  | c :: r =>
    if c = '\n' then none
    else if c = '%' ∧ r.head? = some '\x7d' then some r.tail
    else findZWEnd r

/-- Fueled scan removing every zero-width percent-brace group. -/
def stripZWF : Nat → List Char → List Char
  | 0, l => l
  | _, [] => []
  | fuel + 1, c :: rest =>
    if c = '%' ∧ rest.head? = some '\x7b' then
      match findZWEnd rest.tail with
      | some r' => stripZWF fuel r'
      | none => c :: stripZWF fuel rest
    else c :: stripZWF fuel rest

/-- Remove every zero-width percent-brace group (the second regex
substitution of `printable_length`). -/
def stripZW (l : List Char) : List Char := stripZWF l.length l

/-- `printable_length`: the number of characters left after removing ANSI
escapes and zero-width markers. -/
def printable_length (s : String) : Nat :=
  (stripZW (stripAnsi s.data)).length

-- Python string primitives used by the parser.

/-- The whitespace characters stripped by Python `str.strip()` (the ASCII
ones; exotic unicode spaces do not occur in this program's inputs). -/
def isPyWs (c : Char) : Bool :=
  c = ' ' || c = '\t' || c = '\n' || c = '\r' || c = '\x0b' || c = '\x0c'

def pyStripData (l : List Char) : List Char :=
  ((l.dropWhile isPyWs).reverse.dropWhile isPyWs).reverse

/-- Python `str.strip()`. -/
def pyStrip (s : String) : String := String.mk (pyStripData s.data)

/-- The line-break characters recognized by Python `str.splitlines()`. -/
def isLineBreak (c : Char) : Bool :=
  c = '\n' || c = '\r' || c = '\x0b' || c = '\x0c' || c = '\x1c' ||
  c = '\x1d' || c = '\x1e' || c = '\x85' || c = '\u2028' || c = '\u2029'

/-- Scanner for `str.splitlines()`: `cur` holds the current line reversed;
a CRLF pair counts as a single break, and a trailing break produces no
trailing empty line. -/
def splitlinesGo (cur : List Char) : List Char → List (List Char)
  | [] => if cur = [] then [] else [cur.reverse]
  | '\r' :: '\n' :: r => cur.reverse :: splitlinesGo [] r
  | c :: r =>
    if isLineBreak c then cur.reverse :: splitlinesGo [] r
    else splitlinesGo (c :: cur) r

/-- Python `str.splitlines()`. -/
def pySplitlines (s : String) : List String :=
  (splitlinesGo [] s.data).map String.mk

/-- Python `str.split(sep)` for a one-character separator with no maxsplit:
every occurrence splits, empty pieces are kept. -/
def splitOnChar (sep : Char) : List Char → List (List Char)
  | [] => [[]]
  | c :: r =>
    if c = sep then [] :: splitOnChar sep r
    else
      match splitOnChar sep r with
      | h :: t => (c :: h) :: t
      | [] => [[c]]

/-- Python `str.split(" ", maxsplit)`: at most `n` splits, remainder kept
whole. -/
def splitSpaceMax : Nat → List Char → List (List Char)
  | 0, l => [l]
  | n + 1, l =>
    let pre := l.takeWhile (· != ' ')
    match l.dropWhile (· != ' ') with
    | [] => [l]
    | _ :: r => pre :: splitSpaceMax n r

/-- Python sequence indexing `l[i]` for non-negative `i`: `IndexError` when
out of range. -/
def pyIndex (l : List α) (i : Nat) : Except PyErr α :=
  match l.drop i with
  | [] => .error .indexError
  | x :: _ => .ok x

/-- Python string indexing `s[i]` for non-negative `i`. -/
def pyCharAt (s : String) (i : Nat) : Except PyErr Char := pyIndex s.data i

def digitsToNat (l : List Char) : Nat :=
  l.foldl (fun acc c => acc * 10 + (c.toNat - '0'.toNat)) 0

/-- Python `int(s)`: strip whitespace, then an optional sign followed by a
non-empty run of decimal digits; anything else raises `ValueError`.
(Python additionally allows underscores between digits and unicode digits;
those forms do not occur here.) -/
def pyInt (s : String) : Except PyErr Int :=
  let t := pyStripData s.data
  let signAndDigits : Int × List Char :=
    match t with
    | '+' :: r => (1, r)
    | '-' :: r => (-1, r)
    | r => (1, r)
  if signAndDigits.2.isEmpty || !signAndDigits.2.all (·.isDigit) then
    .error (.valueError "invalid literal for int() with base 10")
  else .ok (signAndDigits.1 * (digitsToNat signAndDigits.2 : Int))

-- The porcelain status parser.

/-- The record built by the porcelain parser, with its default values.
Counts are `Int` because they come from Python `int`s. -/
structure GitInfo where
  branch : String := "unknown"
  ahead : Int := 0
  behind : Int := 0
  staged : Int := 0
  unstaged : Int := 0
  untracked : Int := 0
  unmerged : Int := 0
  stash : Int := 0
  deriving Repr, DecidableEq

/-- Python `str.startswith` (and Lean `String.startsWith`), computed on the
character lists. -/
def strStartsWith (s p : String) : Bool := p.data.isPrefixOf s.data

/-- The ahead/behind token loop of the parser: over the tokens after the
first two, a token starting with a plus sets `ahead` from the rest of the
token, one starting with a minus sets `behind`. -/
def parseAB : List (List Char) → GitInfo → Except PyErr GitInfo
  | [], info => .ok info
  | p :: rest, info =>
    if p.head? = some '+' then do
      parseAB rest {info with ahead := ← pyInt (String.mk p.tail)}
    else if p.head? = some '-' then do
      parseAB rest {info with behind := ← pyInt (String.mk p.tail)}
    else parseAB rest info

/-- One iteration of the parser's line loop. -/
def parseLine (info : GitInfo) (line : String) : Except PyErr GitInfo :=
  if strStartsWith line "# branch.head" then do
    let tok ← pyIndex (splitSpaceMax 2 line.data) 2
    .ok {info with branch := String.mk tok}
  else if strStartsWith line "#branch.ab" then
    -- The source tests this prefix with no space after the hash sign,
    -- although its own inline comment shows the line as starting with
    -- a hash sign, a space and then the marker.
    parseAB ((splitOnChar ' ' line.data).drop 2) info
  else if strStartsWith line "# stash" then do
    let tok ← pyIndex (splitSpaceMax 2 line.data) 2
    let v ← pyInt (String.mk tok)
    .ok {info with stash := v}
  else if line ≠ "" ∧ ¬ strStartsWith line "#" then
    match line.data with
    | [] => .ok info
    | ind :: _ =>
      if ind = '1' ∨ ind = '2' then do
        let c2 ← pyCharAt line 2
        let info := if c2 ≠ '.' then {info with staged := info.staged + 1} else info
        let c3 ← pyCharAt line 3
        .ok (if c3 ≠ '.' then {info with unstaged := info.unstaged + 1} else info)
      else if ind = '?' then .ok {info with untracked := info.untracked + 1}
      else if ind = 'u' then .ok {info with unmerged := info.unmerged + 1}
      else .ok info
  else .ok info

def parseLinesGo : GitInfo → List String → Except PyErr GitInfo
  | info, [] => .ok info
  | info, l :: rest => do parseLinesGo (← parseLine info l) rest

/-- `_parse_git_porcelain`: parse the output of the porcelain status command
into a `GitInfo`; empty or all-blank input raises `ValueError`. -/
def parse_git_porcelain (git_porcelain : String) : Except PyErr GitInfo :=
  let t := pyStrip git_porcelain
  if t = "" then
    .error (.valueError "No git porcelain information found.")
  else
    let lines := pySplitlines t
    if !lines.any (· != "") then
      .error (.valueError "Failed to parse git porcelain information. No lines found in the input.")
    else parseLinesGo {} lines

-- Path shortening (`_shorten_path`), modelled on character lists.
-- `os.sep` is the slash; `os.path.expanduser` is the `homedir` parameter.
-- Python `len(path)` is the raw character count (`List.length`), which
-- counts the zero-width bold marker the function has inserted.

/-- `os.sep.join`. -/
def joinChars : List (List Char) → List Char
  | [] => []
  | [p] => p
  | p :: rest => p ++ '/' :: joinChars rest

/-- The home-directory replacement step: a path not starting with a tilde
but starting with the home directory gets that part replaced by a tilde. -/
def homedirStep (homedir p : List Char) : List Char :=
  if p.take 1 = ['~'] then p
  else if homedir.isPrefixOf p then '~' :: p.drop homedir.length
  else p

/-- `_bold` on character lists. -/
def boldC (l : List Char) : List Char := (zero_width "\x1b[1m").data ++ l

/-- Bold the last part of the path (`parts[-1] = _bold(parts[-1])`, guarded
by the list being non-empty; after the empty-part filter, `any(parts)` is
the same as non-emptiness). -/
def boldLastC : List (List Char) → List (List Char)
  | [] => []
  | [p] => [boldC p]
  | p :: rest => p :: boldLastC rest

/-- The collapsing loop: for each index over the original `parts[:-1]`
(`fuel` counts the remaining indices), stop as soon as the raw length of
the joined path is within the maximum, otherwise replace a multi-character
part by its first character and re-join. -/
def collapseGoC (maxLen : Int) : List (List Char) → Nat → Nat → List (List Char)
  | parts, _, 0 => parts
  | parts, i, fuel + 1 =>
    if ((joinChars parts).length : Int) ≤ maxLen then parts
    else
      let part := parts.getD i []
      if 1 < part.length then
        collapseGoC maxLen (parts.set i (part.take 1)) (i + 1) fuel
      else collapseGoC maxLen parts (i + 1) fuel

/-- The part list produced by `_shorten_path` just before the final join. -/
def shortenParts (homedir p : List Char) (maxLen : Int) : List (List Char) :=
  let p := homedirStep homedir p
  let parts := (splitOnChar '/' p).filter (· != [])
  let parts := boldLastC parts
  collapseGoC maxLen parts 0 (parts.length - 1)

/-- `_shorten_path homedir path max_length`. -/
def shorten_path (homedir path : String) (maxLen : Int) : String :=
  String.mk (joinChars (shortenParts homedir.data path.data maxLen))

-- Prompt parts and the assembler.

/-- A prompt part: a Python dictionary with poppable keys `text`,
`foreground` and `background` (`none` models an absent key) and the
remaining boolean style keys, which default to the `style` defaults. -/
structure Part where
  text : Option String := none
  foreground : Option Color := none
  background : Option Color := none
  bold : Bool := false
  underline : Bool := false
  reverse : Bool := false
  deriving Repr, DecidableEq

/-- Python truthiness of `part.get "text"`. -/
def truthy (t : Option String) : Bool :=
  match t with
  | some s => s != ""
  | none => false

/-- The effect of the three `pop` calls on a part. -/
def consumePart (p : Part) : Part :=
  {p with text := none, foreground := none, background := none}

/-- The assembler loop of `parts_assembler` over the already-filtered part
list: `n` is the filtered length, `i` the current index, `assembly` the
accumulator and `last_bg` the previous part's background.  Returns the
assembled string (or the `ValueError` for an invalid side, raised when a
separator between two parts is emitted) together with the post-`pop` state
of the parts; on an error the parts after the raising one are untouched. -/
def asmGo (side : String) (n : Nat) :
    Nat → String → Option Color → List Part → Except PyErr String × List Part
  | _, assembly, _, [] => (.ok assembly, [])
  | i, assembly, last_bg, p :: rest =>
    let part_text := p.text.getD ""
    let part_fg := p.foreground
    let part_bg := p.background
    let p' := consumePart p
    let sepRes : Except PyErr String :=
      if assembly = "" then .ok (style SEP_L part_bg none false false false)
      else if side = "left" then .ok (style SEP_R last_bg part_bg false false false)
      else if side = "right" then .ok (style SEP_L part_bg last_bg false false false)
      else .error (.valueError ("Invalid side: " ++ side))
    match sepRes with
    | .error e => (.error e, p' :: rest)
    | .ok sep =>
      let assembly := assembly ++ sep ++
        style (" " ++ part_text ++ " ") part_fg part_bg p.bold p.underline p.reverse
      let assembly :=
        if i = n - 1 then assembly ++ style SEP_R part_bg none false false false
        else assembly
      let r := asmGo side n (i + 1) assembly part_bg rest
      (r.1, p' :: r.2)

/-- Reinsert the post-`pop` dictionaries into the caller's list: the parts
with truthy text are the ones the assembler saw (and mutated). -/
def mergeBack : List Part → List Part → List Part
  | [], _ => []
  | p :: ps, f =>
    if truthy p.text then
      match f with
      | q :: fs => q :: mergeBack ps fs
      | [] => p :: mergeBack ps []
    else p :: mergeBack ps f

/-- `parts_assembler parts side`: the assembled prompt string, plus the
state of the caller's part dictionaries after the call (the `pop` calls
mutate them). -/
def parts_assembler (parts : List Part) (side : String) :
    Except PyErr String × List Part :=
  let filtered := parts.filter (fun p => truthy p.text)
  let r := asmGo side filtered.length 0 "" none filtered
  (r.1, mergeBack parts r.2)

-- Part builders.

/-- `get_path path max_length` (with the home directory made explicit). -/
def get_path (homedir path : String) (maxLen : Int) : Part :=
  { text := some (DIR_SYMBOL ++ " " ++ shorten_path homedir path maxLen),
    foreground := some PATH_FG, background := some PATH_BG }

/-- `get_chevron`: red on a truthy (non-empty) last exit status, else
green. -/
def get_chevron (last_exit_status : String) : String :=
  style CHEVRON (some (if last_exit_status ≠ "" then red else green)) none
    true false false

/-- `get_time_since_last_commit`, with the current epoch second made
explicit. -/
def get_time_since_last_commit (now : Int) (t : String) : String :=
  match pyInt t with
  | .error _ => ""
  | .ok tv =>
    let d := now - tv
    if d < 60 then "just now"
    else if d < 3600 then toString (d / 60) ++ "m"
    else if d < 86400 then toString (d / 3600) ++ "h"
    else toString (d / 86400) ++ "d"

/-- Python `dict.get` on an association-list model of a string dictionary. -/
def dictGet (d : List (String × String)) (k : String) : Option String :=
  (d.find? (fun kv => kv.1 == k)).map (·.2)

/-- `" ".join`. -/
def joinSpace : List String → String
  | [] => ""
  | [p] => p
  | p :: rest => p ++ " " ++ joinSpace rest

/-- `get_vcs_info git_porcelain vcs_info time_of_last_commit`: the
version-control part.  A `ValueError` from the porcelain parser is caught
and turned into an empty part with the default black-on-yellow colors; an
`IndexError` propagates. -/
def get_vcs_info (git_porcelain : String)
    (vcs_info : Option (List (String × String)))
    (time_of_last_commit : Option String) (now : Int) : Except PyErr Part :=
  match parse_git_porcelain git_porcelain with
  | .error (.valueError _) =>
    .ok {text := some "", foreground := some black, background := some yellow}
  | .error e => .error e
  | .ok porcelain =>
    let branch := porcelain.branch
    let parts := [quick_bold BRANCH_SYMBOL, quick_bold branch]
    let colors : Color × Color :=
      if branch = "main" ∨ branch = "master" then (white, blue)
      else (black, yellow)
    let actionTaken : Bool :=
      match vcs_info with
      | some d => d.any (fun kv => kv.1 != "") && truthy (dictGet d "action")
      | none => false
    let parts :=
      if actionTaken then
        match vcs_info with
        | some d => ["[" ++ (dictGet d "action").getD "" ++ "]"] ++ parts
        | none => parts
      else parts
    let colors := if actionTaken then (black, red) else colors
    let parts := parts ++
      (if porcelain.ahead > 0 then [GIT_AHEAD ++ toString porcelain.ahead] else []) ++
      (if porcelain.behind > 0 then [GIT_BEHIND ++ toString porcelain.behind] else []) ++
      (if porcelain.staged > 0 then [GIT_STAGED ++ toString porcelain.staged] else []) ++
      (if porcelain.unstaged > 0 then [GIT_UNSTAGED ++ toString porcelain.unstaged] else []) ++
      (if porcelain.untracked > 0 then [GIT_UNTRACKED ++ toString porcelain.untracked] else []) ++
      (if porcelain.stash > 0 then [GIT_STASHED ++ toString porcelain.stash] else [])
    let parts :=
      match time_of_last_commit with
      | none => parts
      | some t =>
        let pretty := get_time_since_last_commit now t
        if pretty ≠ "" then parts ++ ["(" ++ pretty ++ ")"] else parts
    .ok {text := some (joinSpace parts), foreground := some colors.1,
         background := some colors.2}

-- The bash prompt layout.

/-- The five named parts `bash_prompt` receives. -/
structure BashParts where
  user : Part
  path : Part
  vcs : Part
  exit : Part
  venv : Part
  deriving Repr, DecidableEq

/-- The quantities `bash_prompt` computes before formatting: the two
assembled sides, the first gap, and the final gap (recomputed once after
the overflow re-shortening, otherwise equal to the first). -/
structure BashLayout where
  left : String
  right : String
  space0 : Int
  space : Int
  deriving Repr, DecidableEq

/-- `_spacer width`: the spacer character repeated `width` times (empty for
a non-positive width, as for Python string repetition). -/
def spacerStr (width : Int) : String :=
  String.mk (List.replicate width.toNat SPACER)

/-- The layout computation of `bash_prompt`, with the terminal width made
explicit.  The first assembly pass runs on `deepcopy`-made copies, so the
overflow pass can reuse the untouched original parts; values being
immutable here, the copies are the parts themselves. -/
def bashPromptCore (homedir : String) (parts : BashParts) (width : Int) :
    Except PyErr BashLayout :=
  let path_text := (parts.path.text.getD "").drop 2
  match (parts_assembler [parts.user, parts.path, parts.vcs] "left").1 with
  | .error e => .error e
  | .ok left_side =>
    match (parts_assembler [parts.exit, parts.venv] "right").1 with
    | .error e => .error e
    | .ok right_side =>
      let content_length : Int :=
        printable_length left_side + printable_length right_side
      let space0 := width - content_length - 1
      if space0 < 0 then
        let path_length : Int := (printable_length path_text : Int) + space0 - 2
        let new_path := get_path homedir path_text path_length
        match (parts_assembler [parts.user, new_path, parts.vcs] "left").1 with
        | .error e => .error e
        | .ok left_side =>
          let content_length : Int :=
            printable_length left_side + printable_length right_side
          .ok ⟨left_side, right_side, space0, width - content_length - 1⟩
      else .ok ⟨left_side, right_side, space0, space0⟩

/-- `bash_prompt`, formatting the layout into the final line. -/
def bash_prompt (homedir : String) (parts : BashParts) (width : Int) :
    Except PyErr String :=
  match bashPromptCore homedir parts width with
  | .error e => .error e
  | .ok L =>
    .ok (L.left ++ spacerStr L.space ++ L.right ++ newlineMark ++
      get_chevron (parts.exit.text.getD "") ++ " ")

-- Definitions used by the verification statements and witnesses.

/-- Whether a character list contains a zero-width opening marker (a percent
sign directly followed by an opening brace). -/
def hasZWOpen : List Char → Bool
  | [] => false
  | c :: r => if c = '%' ∧ r.head? = some '\x7b' then true else hasZWOpen r

/-- The text `_shorten_path` builds just before its collapsing loop: home
directory replaced, split into non-empty segments, last segment bolded,
re-joined.  The collapsing loop leaves the path exactly in this state when
no segment gets collapsed. -/
def noCollapseC (homedir p : List Char) : List Char :=
  joinChars (boldLastC ((splitOnChar '/' (homedirStep homedir p)).filter (· != [])))

/-- The last element of a list of segments (empty list when there is
none). -/
def lastD : List (List Char) → List Char
  | [] => []
  | [x] => x
  | _ :: xs => lastD xs

/-- The last slash-separated segment of a string (as a character list). -/
def lastSeg (s : String) : List Char :=
  lastD (splitOnChar '/' s.data)

/-- The layout `bash_prompt` computes, extracted from the `Except`. -/
def layoutOf (homedir : String) (parts : BashParts) (width : Int) : BashLayout :=
  match bashPromptCore homedir parts width with
  | .ok L => L
  | .error _ => ⟨"", "", 0, 0⟩

-- Concrete parts used by witnesses and validation.
def vUser : Part := {text := some "uu", foreground := some black, background := some white, bold := true}
def vVcs : Part := {text := some "", foreground := some black, background := some yellow}
def vExit : Part := {text := some "", foreground := some black, background := some red, bold := true}
def vVenv : Part := {text := some "venv", foreground := some black, background := some magenta}

/-- A part set whose path overflows a width-50 terminal, triggering the
re-shortening pass of `bash_prompt`. -/
def vPartsOverflow : BashParts :=
  ⟨vUser,
   get_path "/home/u" "/home/u/longdirectoryname/anotherlongdirectory/deep/deeper/finaldirname" 70,
   vVcs, vExit, vVenv⟩

/-- A part set that fits a width-60 terminal. -/
def vPartsFit : BashParts :=
  ⟨vUser, get_path "/home/u" "/home/u/someproject/deep/deeper/deepestdir" 70,
   vVcs, vExit, vVenv⟩

/-- A 72-character absolute path whose pre-collapse text has printable
length exactly 70 but raw length 78 (the bold marker adds 8 characters). -/
def c3Path : String := "/abc/" ++ String.mk (List.replicate 66 'a')

-- ============================== THEOREMS ==============================

theorem takeAnsiBody_length :
    ∀ l r, takeAnsiBody l = some r → r.length < l.length := by
  intro l
  induction l with
  | nil => intro r h; simp [takeAnsiBody] at h
  | cons c cs ih =>
    intro r h
    simp only [takeAnsiBody] at h
    by_cases hm : c = 'm'
    · simp [hm] at h; simp [← h]
    · by_cases hd : c.isDigit || c = ';'
      · simp [hm, hd] at h
        have := ih r h
        simp; omega
      · simp [hm, hd] at h

theorem findZWEnd_length :
    ∀ l r, findZWEnd l = some r → r.length < l.length := by
  intro l
  induction l with
  | nil => intro r h; simp [findZWEnd] at h
  | cons c cs ih =>
    intro r h
    simp only [findZWEnd] at h
    by_cases hn : c = '\n'
    · simp [hn] at h
    · by_cases hp : c = '%' ∧ cs.head? = some '\x7d'
      · simp [hn, hp] at h
        subst h
        simp [List.length_tail]
        omega
      · simp [hn, hp] at h
        have := ih r h
        simp; omega

example : printable_length (style "ab" (some red) none false false false) = 2 := by decide

example : pyInt " -42 " = .ok (-42) := by decide
example : pyInt "+-3" = .error (.valueError "invalid literal for int() with base 10") := by decide
example : pySplitlines "a\r\nb\nc" = ["a", "b", "c"] := by decide

example :
    parse_git_porcelain "# branch.head main\n# branch.ab +2 -3\n1 M. N..." =
      .ok {branch := "main", staged := 1} := by decide

example :
    parse_git_porcelain "#branch.ab x +2 -3" = .ok {ahead := 2, behind := 3} := by decide

example : parse_git_porcelain "# stash -1" = .ok {stash := -1} := by decide

example : shorten_path "/home/u" "/home/u/repos/core" 70 = "~/repos/%\x7b\x1b[1m%\x7dcore" := by decide
example :
    shorten_path "/home/u" "/home/u/alpha/beta/gamma/deltadeltadeltadeltadeltadeltadeltadeltadelta" 70 =
      "~/a/beta/gamma/%\x7b\x1b[1m%\x7ddeltadeltadeltadeltadeltadeltadeltadeltadelta" := by decide

-- Concrete end-to-end evaluations of the embedding, including the
-- overflow re-shortening pass of the bash prompt.

example :
    bash_prompt "/home/u" vPartsFit 60 =
    .ok "%\x7b\x1b[37m%\x7d%\x7b\x1b[0m%\x7d%\x7b\x1b[1m%\x7d%\x7b\x1b[47m%\x7d%\x7b\x1b[30m%\x7d uu %\x7b\x1b[0m%\x7d%\x7b\x1b[44m%\x7d%\x7b\x1b[37m%\x7d%\x7b\x1b[0m%\x7d%\x7b\x1b[44m%\x7d%\x7b\x1b[37m%\x7d  ~/someproject/deep/deeper/%\x7b\x1b[1m%\x7ddeepestdir %\x7b\x1b[0m%\x7d%\x7b\x1b[34m%\x7d%\x7b\x1b[0m%\x7d····%\x7b\x1b[35m%\x7d%\x7b\x1b[0m%\x7d%\x7b\x1b[45m%\x7d%\x7b\x1b[30m%\x7d venv %\x7b\x1b[0m%\x7d%\x7b\x1b[35m%\x7d%\x7b\x1b[0m%\x7d%\x7b\n%\x7d%\x7b\x1b[1m%\x7d%\x7b\x1b[32m%\x7d%\x7b\x1b[0m%\x7d " := by
  decide

example :
    bash_prompt "/home/u" vPartsOverflow 50 =
    .ok "%\x7b\x1b[37m%\x7d%\x7b\x1b[0m%\x7d%\x7b\x1b[1m%\x7d%\x7b\x1b[47m%\x7d%\x7b\x1b[30m%\x7d uu %\x7b\x1b[0m%\x7d%\x7b\x1b[44m%\x7d%\x7b\x1b[37m%\x7d%\x7b\x1b[0m%\x7d%\x7b\x1b[44m%\x7d%\x7b\x1b[37m%\x7d  ~/l/a/d/d/%\x7b\x1b[1m%\x7d%\x7b\x1b[1m%\x7dfinaldirname %\x7b\x1b[0m%\x7d%\x7b\x1b[34m%\x7d%\x7b\x1b[0m%\x7d········%\x7b\x1b[35m%\x7d%\x7b\x1b[0m%\x7d%\x7b\x1b[45m%\x7d%\x7b\x1b[30m%\x7d venv %\x7b\x1b[0m%\x7d%\x7b\x1b[35m%\x7d%\x7b\x1b[0m%\x7d%\x7b\n%\x7d%\x7b\x1b[1m%\x7d%\x7b\x1b[32m%\x7d%\x7b\x1b[0m%\x7d " := by
  decide

example :
    (parts_assembler
      [{text := some "a", foreground := some red, background := some blue},
       {text := some "b", foreground := some green, background := some cyan, underline := true}]
      "right").1 =
    .ok "%\x7b\x1b[34m%\x7d%\x7b\x1b[0m%\x7d%\x7b\x1b[44m%\x7d%\x7b\x1b[31m%\x7d a %\x7b\x1b[0m%\x7d%\x7b\x1b[44m%\x7d%\x7b\x1b[36m%\x7d%\x7b\x1b[0m%\x7d%\x7b\x1b[4m%\x7d%\x7b\x1b[46m%\x7d%\x7b\x1b[32m%\x7d b %\x7b\x1b[0m%\x7d%\x7b\x1b[36m%\x7d%\x7b\x1b[0m%\x7d" := by
  decide

example :
    (parts_assembler
      [{text := some "", foreground := some red, background := some blue},
       {text := some "b", foreground := some green, background := some cyan}]
      "left").1 =
    .ok "%\x7b\x1b[36m%\x7d%\x7b\x1b[0m%\x7d%\x7b\x1b[46m%\x7d%\x7b\x1b[32m%\x7d b %\x7b\x1b[0m%\x7d%\x7b\x1b[36m%\x7d%\x7b\x1b[0m%\x7d" := by
  decide

/-- C1: on the porcelain input of the claim, the parser returns branch
"main", staged 1 and unstaged 0 as claimed, but leaves ahead and behind at
0: the ahead/behind line "# branch.ab +2 -3" is matched against the
marker "#branch.ab" (no space after the hash) and is therefore skipped. -/
theorem c1_branch_ab_line_ignored :
    parse_git_porcelain "# branch.head main\n# branch.ab +2 -3\n1 M. N..." =
      .ok {branch := "main", ahead := 0, behind := 0, staged := 1,
           unstaged := 0, untracked := 0, unmerged := 0, stash := 0} := by
  decide

/-- C6 counterexample: a successful parse can produce a negative count: the
stash line value is read with `int()` and "# stash -1" yields stash = -1. -/
theorem c6_counterexample :
    parse_git_porcelain "# stash -1" = .ok {branch := "unknown", stash := -1} ∧
      ((-1 : Int) < 0) := by
  decide

/-- C7: on input that strips to blank, the porcelain parser raises
`ValueError` and `get_vcs_info` recovers it, returning the empty-text part
with the default black-on-yellow colors instead of propagating. -/
theorem c7_blank_input_recovered (s : String)
    (v : Option (List (String × String))) (t : Option String) (now : Int)
    (h : pyStrip s = "") :
    parse_git_porcelain s =
        .error (.valueError "No git porcelain information found.") ∧
      get_vcs_info s v t now =
        .ok {text := some "", foreground := some black, background := some yellow} := by
  have hp : parse_git_porcelain s =
      .error (.valueError "No git porcelain information found.") := by
    unfold parse_git_porcelain
    simp [h]
  exact ⟨hp, by unfold get_vcs_info; rw [hp]⟩

/-- C7 witness: the blank-input behavior at the concrete input " \n ". -/
theorem c7_blank_input_recovered_witness :
    pyStrip " \n " = "" ∧
      (parse_git_porcelain " \n " =
          .error (.valueError "No git porcelain information found.") ∧
        get_vcs_info " \n " none none 0 =
          .ok {text := some "", foreground := some black, background := some yellow}) :=
  ⟨by decide, c7_blank_input_recovered " \n " none none 0 (by decide)⟩

/-- C3 counterexample: for this path the pre-collapse text has printable
length at most 70 (and so does the result), yet the first segment gets
collapsed, because the loop measures the raw length, which includes the
8-character zero-width bold marker. -/
theorem c3_counterexample :
    printable_length (shorten_path "/home/user" c3Path 70) ≤ 70 ∧
      printable_length (String.mk (noCollapseC "/home/user".data c3Path.data)) ≤ 70 ∧
      shorten_path "/home/user" c3Path 70 ≠
        String.mk (noCollapseC "/home/user".data c3Path.data) := by
  decide

/-- C4 counterexample: shortening is not idempotent even on a 4-character
path: every application prepends another bold marker to the last segment. -/
theorem c4_counterexample :
    ("/a/b" : String).length < 70 ∧ printable_length "/a/b" ≤ 70 ∧
      shorten_path "/home/u" (shorten_path "/home/u" "/a/b" 70) 70 ≠
        shorten_path "/home/u" "/a/b" 70 := by
  decide

/-- C5 counterexample: the last segment of the output is not equal to the
last segment of the input: it carries the zero-width bold marker. -/
theorem c5_counterexample :
    lastSeg (shorten_path "/home/u" "/a/bc" 70) ≠ lastSeg "/a/bc" := by
  decide

/-- C8 counterexample: with an unknown direction the assembler raises only
when it emits a separator between two parts; with an empty part list (or a
single non-empty part) it returns a string normally. -/
theorem c8_counterexample :
    (parts_assembler [] "up").1 = .ok "" ∧
      ((parts_assembler [vVenv] "up").1).isOk = true := by
  decide

/-- C9 counterexample: for the string of three visible characters percent,
open-brace, letter a, styling destroys the width: the stray opening marker
captures the closing of the styling wrapper, so the whole string is
stripped and the printable length of the styled string is 0, not 3. -/
theorem c9_counterexample :
    printable_length (style "%\x7ba" (some black) none false false false) = 0 ∧
      printable_length "%\x7ba" = 3 ∧ ("%\x7ba" : String).length = 3 := by
  decide

-- Helper lemmas about string lengths and emptiness.

theorem resetStyled_length (x : String) : (resetStyled x).length = x.length + 8 := by
  have h8 : (zero_width "\x1b[0m").length = 8 := rfl
  simp [resetStyled, String.length_append, h8]

theorem string_ne_empty_of_length (a : String) (h : a.length ≠ 0) : a ≠ "" := by
  intro he
  exact h (by simp [he])

theorem string_append_ne (a b : String) (h : a ≠ "" ∨ b ≠ "") : a ++ b ≠ "" := by
  apply string_ne_empty_of_length
  rw [String.length_append]
  rcases h with h | h
  · have : a.length ≠ 0 := fun h0 => h (by
      cases a with
      | mk d =>
        cases d with
        | nil => rfl
        | cons c t => simp [String.length] at h0)
    omega
  · have : b.length ≠ 0 := fun h0 => h (by
      cases b with
      | mk d =>
        cases d with
        | nil => rfl
        | cons c t => simp [String.length] at h0)
    omega

theorem style_ne_empty (s : String) (fg bg : Option Color) (b u r : Bool)
    (hs : s ≠ "") : style s fg bg b u r ≠ "" := by
  apply string_ne_empty_of_length
  simp only [style, if_neg hs]
  rw [resetStyled_length]
  omega

-- Monotonicity of the porcelain parser in the four incremented counts.

theorem parseAB_preserves :
    ∀ (ps : List (List Char)) (info info' : GitInfo),
      parseAB ps info = .ok info' →
      info'.staged = info.staged ∧ info'.unstaged = info.unstaged ∧
        info'.untracked = info.untracked ∧ info'.unmerged = info.unmerged := by
  intro ps
  induction ps with
  | nil =>
    intro info info' h
    simp only [parseAB] at h
    cases h
    exact ⟨rfl, rfl, rfl, rfl⟩
  | cons p rest ih =>
    intro info info' h
    simp only [parseAB] at h
    by_cases h1 : p.head? = some '+'
    · rw [if_pos h1] at h
      cases hv : pyInt (String.mk p.tail) with
      | error e => rw [hv] at h; simp [bind, Except.bind] at h
      | ok v =>
        rw [hv] at h
        simp only [bind, Except.bind] at h
        simpa using ih _ _ h
    · rw [if_neg h1] at h
      by_cases h2 : p.head? = some '-'
      · rw [if_pos h2] at h
        cases hv : pyInt (String.mk p.tail) with
        | error e => rw [hv] at h; simp [bind, Except.bind] at h
        | ok v =>
          rw [hv] at h
          simp only [bind, Except.bind] at h
          simpa using ih _ _ h
      · rw [if_neg h2] at h
        exact ih _ _ h

theorem parseLine_mono (info : GitInfo) (line : String) (info' : GitInfo)
    (h : parseLine info line = .ok info') :
    info.staged ≤ info'.staged ∧ info.unstaged ≤ info'.unstaged ∧
      info.untracked ≤ info'.untracked ∧ info.unmerged ≤ info'.unmerged := by
  unfold parseLine at h
  split_ifs at h with hbh hab hst hcont
  · cases hv : pyIndex (splitSpaceMax 2 line.data) 2 with
    | error e => rw [hv] at h; simp [bind, Except.bind] at h
    | ok tok =>
      rw [hv] at h
      simp only [bind, Except.bind] at h
      cases h
      exact ⟨le_refl _, le_refl _, le_refl _, le_refl _⟩
  · obtain ⟨e1, e2, e3, e4⟩ := parseAB_preserves _ _ _ h
    omega
  · cases hv : pyIndex (splitSpaceMax 2 line.data) 2 with
    | error e => rw [hv] at h; simp [bind, Except.bind] at h
    | ok tok =>
      rw [hv] at h
      simp only [bind, Except.bind] at h
      cases hw : pyInt (String.mk tok) with
      | error e => rw [hw] at h; simp at h
      | ok v =>
        rw [hw] at h
        simp only at h
        cases h
        exact ⟨le_refl _, le_refl _, le_refl _, le_refl _⟩
  · cases hl : line.data with
    | nil =>
      rw [hl] at h
      cases h
      exact ⟨le_refl _, le_refl _, le_refl _, le_refl _⟩
    | cons ind tl =>
      rw [hl] at h
      dsimp only at h
      by_cases h12 : ind = '1' ∨ ind = '2'
      · rw [if_pos h12] at h
        cases hc2 : pyCharAt line 2 with
        | error e => rw [hc2] at h; simp [bind, Except.bind] at h
        | ok c2 =>
          rw [hc2] at h
          simp only [bind, Except.bind] at h
          cases hc3 : pyCharAt line 3 with
          | error e => rw [hc3] at h; simp [bind, Except.bind] at h
          | ok c3 =>
            rw [hc3] at h
            simp only [bind, Except.bind] at h
            cases h
            split_ifs <;> simp
      · rw [if_neg h12] at h
        by_cases hq : ind = '?'
        · rw [if_pos hq] at h
          cases h
          simp
        · rw [if_neg hq] at h
          by_cases hu : ind = 'u'
          · rw [if_pos hu] at h
            cases h
            simp
          · rw [if_neg hu] at h
            cases h
            exact ⟨le_refl _, le_refl _, le_refl _, le_refl _⟩
  · cases h
    exact ⟨le_refl _, le_refl _, le_refl _, le_refl _⟩

theorem parseLinesGo_mono :
    ∀ (lines : List String) (info info' : GitInfo),
      parseLinesGo info lines = .ok info' →
      info.staged ≤ info'.staged ∧ info.unstaged ≤ info'.unstaged ∧
        info.untracked ≤ info'.untracked ∧ info.unmerged ≤ info'.unmerged := by
  intro lines
  induction lines with
  | nil =>
    intro info info' h
    simp only [parseLinesGo] at h
    cases h
    exact ⟨le_refl _, le_refl _, le_refl _, le_refl _⟩
  | cons l rest ih =>
    intro info info' h
    simp only [parseLinesGo] at h
    cases hv : parseLine info l with
    | error e => rw [hv] at h; simp [bind, Except.bind] at h
    | ok mid =>
      rw [hv] at h
      simp only [bind, Except.bind] at h
      obtain ⟨a1, a2, a3, a4⟩ := parseLine_mono _ _ _ hv
      obtain ⟨b1, b2, b3, b4⟩ := ih _ _ h
      exact ⟨le_trans a1 b1, le_trans a2 b2, le_trans a3 b3, le_trans a4 b4⟩

/-- C6 (amended): on every successful parse the four counts that the parser
only ever increments (staged, unstaged, untracked, unmerged) are
non-negative; `ahead`, `behind` and `stash` are read with `int()` from the
input and can be negative. -/
theorem c6_amended_incremented_counts_nonneg (s : String) (info : GitInfo)
    (h : parse_git_porcelain s = .ok info) :
    0 ≤ info.staged ∧ 0 ≤ info.unstaged ∧
      0 ≤ info.untracked ∧ 0 ≤ info.unmerged := by
  unfold parse_git_porcelain at h
  dsimp only at h
  split_ifs at h
  have h0 := parseLinesGo_mono _ _ _ h
  have e : ({} : GitInfo).staged = 0 ∧ ({} : GitInfo).unstaged = 0 ∧
      ({} : GitInfo).untracked = 0 ∧ ({} : GitInfo).unmerged = 0 :=
    ⟨rfl, rfl, rfl, rfl⟩
  omega

/-- C6 witness: a successful concrete parse with its non-negative counts. -/
theorem c6_amended_witness :
    parse_git_porcelain "1 MM N..." = .ok {branch := "unknown", staged := 1, unstaged := 1} ∧
      (0 : Int) ≤ 1 ∧
      (0 ≤ ({branch := "unknown", staged := 1, unstaged := 1} : GitInfo).staged ∧
        0 ≤ ({branch := "unknown", staged := 1, unstaged := 1} : GitInfo).unstaged ∧
        0 ≤ ({branch := "unknown", staged := 1, unstaged := 1} : GitInfo).untracked ∧
        0 ≤ ({branch := "unknown", staged := 1, unstaged := 1} : GitInfo).unmerged) :=
  ⟨by decide, by decide,
    c6_amended_incremented_counts_nonneg "1 MM N..." _ (by decide)⟩

-- The collapsing loop is the identity when the joined path already fits.

theorem collapseGoC_of_le (maxLen : Int) (parts : List (List Char))
    (i fuel : Nat) (h : ((joinChars parts).length : Int) ≤ maxLen) :
    collapseGoC maxLen parts i fuel = parts := by
  cases fuel with
  | zero => simp [collapseGoC]
  | succ f => simp [collapseGoC, h]

/-- C3 (amended): path shortening collapses no segment as soon as the raw
character length of the pre-collapse text (home directory replaced,
segments re-joined, last segment carrying the 8-character zero-width bold
marker) is within the maximum; the loop measures this raw length, not the
printable length. -/
theorem c3_amended_no_collapse_when_raw_fits (hd p : String) (maxLen : Int)
    (h : ((noCollapseC hd.data p.data).length : Int) ≤ maxLen) :
    shorten_path hd p maxLen = String.mk (noCollapseC hd.data p.data) := by
  simp only [shorten_path, shortenParts, noCollapseC] at h ⊢
  rw [collapseGoC_of_le _ _ _ _ h]

/-- C3 witness: a path that fits is returned in pre-collapse form. -/
theorem c3_amended_witness :
    ((noCollapseC "/home/u".data "/a/b".data).length : Int) ≤ 70 ∧
      shorten_path "/home/u" "/a/b" 70 =
        String.mk (noCollapseC "/home/u".data "/a/b".data) :=
  ⟨by decide, c3_amended_no_collapse_when_raw_fits "/home/u" "/a/b" 70 (by decide)⟩

theorem asmGo_error_second (side : String) (h1 : side ≠ "left")
    (h2 : side ≠ "right") (n i : Nat) (A : String) (hA : A ≠ "")
    (lb : Option Color) (p : Part) (l : List Part) :
    (asmGo side n i A lb (p :: l)).1 =
      .error (.valueError ("Invalid side: " ++ side)) := by
  simp only [asmGo]
  rw [if_neg hA, if_neg h1, if_neg h2]

theorem asmGo_fst_step (side : String) (n : Nat) (a : Part) (l : List Part)
    (hn : ¬(0 = n - 1)) :
    (asmGo side n 0 "" none (a :: l)).1 =
      (asmGo side n 1
        ("" ++ style SEP_L a.background none false false false ++
          style (" " ++ a.text.getD "" ++ " ") a.foreground a.background
            a.bold a.underline a.reverse)
        a.background l).1 := by
  simp only [asmGo]
  simp [hn]

/-- C8 (amended): with a direction outside left/right the assembler raises
the invalid-side `ValueError` exactly when it has at least two parts with
non-empty text (a separator between parts is emitted); with fewer it
returns a string normally. -/
theorem c8_amended_invalid_side_two_parts (parts : List Part) (side : String)
    (h1 : side ≠ "left") (h2 : side ≠ "right")
    (h3 : 2 ≤ (parts.filter (fun p => truthy p.text)).length) :
    (parts_assembler parts side).1 =
      .error (.valueError ("Invalid side: " ++ side)) := by
  unfold parts_assembler
  rcases hF : parts.filter (fun p => truthy p.text) with _ | ⟨a, _ | ⟨b, rest⟩⟩
  · rw [hF] at h3; simp at h3
  · rw [hF] at h3; simp at h3
  · simp only [hF]
    have hsep : style SEP_L a.background none false false false ≠ "" :=
      style_ne_empty _ _ _ _ _ _ (by decide)
    have hA1 : ("" : String) ++ style SEP_L a.background none false false false ++
        style (" " ++ a.text.getD "" ++ " ") a.foreground a.background
          a.bold a.underline a.reverse ≠ "" :=
      string_append_ne _ _ (Or.inl (string_append_ne _ _ (Or.inr hsep)))
    rw [asmGo_fst_step side _ a (b :: rest) (by simp)]
    exact asmGo_error_second side h1 h2 _ _ _ hA1 _ b rest

/-- C8 witness: two non-empty parts and the direction "up". -/
theorem c8_amended_witness :
    ("up" : String) ≠ "left" ∧ ("up" : String) ≠ "right" ∧
      2 ≤ ([vVenv, vUser].filter (fun p => truthy p.text)).length ∧
      (parts_assembler [vVenv, vUser] "up").1 =
        .error (.valueError ("Invalid side: " ++ "up")) :=
  ⟨by decide, by decide, by decide,
    c8_amended_invalid_side_two_parts [vVenv, vUser] "up" (by decide)
      (by decide) (by decide)⟩

-- Split/join lemmas for the path machinery.

theorem splitOnChar_not_mem (sep : Char) :
    ∀ l piece, piece ∈ splitOnChar sep l → sep ∉ piece := by
  intro l
  induction l with
  | nil =>
    intro piece h
    simp [splitOnChar] at h
    simp [h]
  | cons c r ih =>
    intro piece h
    simp only [splitOnChar] at h
    by_cases hc : c = sep
    · rw [if_pos hc] at h
      rcases List.mem_cons.mp h with h | h
      · simp [h]
      · exact ih piece h
    · rw [if_neg hc] at h
      cases hs : splitOnChar sep r with
      | nil =>
        rw [hs] at h
        simp at h
        subst h
        simp
        exact fun hh => hc hh.symm
      | cons hh tt =>
        rw [hs] at h
        rcases List.mem_cons.mp h with h | h
        · subst h
          intro hmem
          rcases List.mem_cons.mp hmem with h | h
          · exact hc h.symm
          · exact ih hh (hs ▸ List.mem_cons_self hh tt) h
        · exact ih piece (hs ▸ List.mem_cons_of_mem hh h)

theorem splitOnChar_no_sep (sep : Char) :
    ∀ l, sep ∉ l → splitOnChar sep l = [l] := by
  intro l
  induction l with
  | nil => intro _; rfl
  | cons c r ih =>
    intro h
    have hc : c ≠ sep := fun hh => h (hh ▸ List.mem_cons_self c r)
    have hr : sep ∉ r := fun hh => h (List.mem_cons_of_mem c hh)
    simp only [splitOnChar, if_neg hc, ih hr]

theorem splitOnChar_append_sep (sep : Char) :
    ∀ p t, sep ∉ p →
      splitOnChar sep (p ++ sep :: t) = p :: splitOnChar sep t := by
  intro p
  induction p with
  | nil =>
    intro t _
    simp [splitOnChar]
  | cons c p' ih =>
    intro t h
    have hc : c ≠ sep := fun hh => h (hh ▸ List.mem_cons_self c p')
    have hp : sep ∉ p' := fun hh => h (List.mem_cons_of_mem c hh)
    show splitOnChar sep ((c :: p') ++ sep :: t) = (c :: p') :: splitOnChar sep t
    rw [List.cons_append]
    simp only [splitOnChar, if_neg hc]
    rw [ih t hp]

theorem split_join :
    ∀ q, (∀ x ∈ q, x ≠ [] ∧ '/' ∉ x) → q ≠ [] →
      splitOnChar '/' (joinChars q) = q := by
  intro q
  induction q with
  | nil => intro _ h; exact absurd rfl h
  | cons x rest ih =>
    intro hprops _
    cases rest with
    | nil =>
      have hx := hprops x (List.mem_cons_self x [])
      simp only [joinChars]
      exact splitOnChar_no_sep '/' x hx.2
    | cons y rest' =>
      have hx := hprops x (List.mem_cons_self x (y :: rest'))
      show splitOnChar '/' (x ++ '/' :: joinChars (y :: rest')) = x :: y :: rest'
      rw [splitOnChar_append_sep '/' x (joinChars (y :: rest')) hx.2]
      rw [ih (fun z hz => hprops z (List.mem_cons_of_mem x hz)) (by simp)]

-- Invariants of the collapsing loop and the bolding step.

theorem lastD_cons_ne (x : List Char) (xs : List (List Char)) (h : xs ≠ []) :
    lastD (x :: xs) = lastD xs := by
  cases xs with
  | nil => exact absurd rfl h
  | cons y ys => rfl

theorem lastD_set :
    ∀ (l : List (List Char)) (i : Nat) (a : List Char),
      i < l.length - 1 → lastD (l.set i a) = lastD l := by
  intro l
  induction l with
  | nil => intro i a h; rfl
  | cons x xs ih =>
    intro i a h
    cases i with
    | zero =>
      have hxs : xs ≠ [] := by
        intro he
        rw [he] at h
        simp at h
      simp only [List.set]
      rw [lastD_cons_ne a xs hxs, lastD_cons_ne x xs hxs]
    | succ i =>
      have hlen : i < xs.length - 1 := by
        simp only [List.length_cons] at h
        omega
      have hxs : xs ≠ [] := by
        intro he
        rw [he] at hlen
        simp at hlen
      have hset : xs.set i a ≠ [] := by
        intro he
        have := congrArg List.length he
        simp at this
        exact hxs this
      simp only [List.set]
      rw [lastD_cons_ne x (xs.set i a) hset, lastD_cons_ne x xs hxs, ih i a hlen]

theorem collapseGoC_length (m : Int) :
    ∀ (fuel : Nat) (parts : List (List Char)) (i : Nat),
      (collapseGoC m parts i fuel).length = parts.length := by
  intro fuel
  induction fuel with
  | zero => intro parts i; rfl
  | succ f ih =>
    intro parts i
    simp only [collapseGoC]
    split_ifs with h1 h2
    · rfl
    · rw [ih]; simp
    · rw [ih]

theorem collapseGoC_lastD (m : Int) :
    ∀ (fuel : Nat) (parts : List (List Char)) (i : Nat),
      i + fuel ≤ parts.length - 1 →
      lastD (collapseGoC m parts i fuel) = lastD parts := by
  intro fuel
  induction fuel with
  | zero => intro parts i _; rfl
  | succ f ih =>
    intro parts i h
    simp only [collapseGoC]
    split_ifs with h1 h2
    · rfl
    · rw [ih _ (i + 1) (by simp; omega)]
      exact lastD_set parts i _ (by omega)
    · exact ih _ (i + 1) (by omega)

theorem collapseGoC_props (m : Int) :
    ∀ (fuel : Nat) (parts : List (List Char)) (i : Nat),
      (∀ x ∈ parts, x ≠ [] ∧ '/' ∉ x) →
      ∀ x ∈ collapseGoC m parts i fuel, x ≠ [] ∧ '/' ∉ x := by
  intro fuel
  induction fuel with
  | zero => intro parts i h; exact h
  | succ f ih =>
    intro parts i h
    simp only [collapseGoC]
    split_ifs with h1 h2
    · exact h
    · apply ih
      intro x hx
      rcases List.mem_or_eq_of_mem_set hx with hx | hx
      · exact h x hx
      · subst hx
        have hil : i < parts.length := by
          by_contra hge
          push_neg at hge
          rw [List.getD_eq_default _ _ hge] at h2
          simp at h2
        have hpart : parts.getD i [] ∈ parts := by
          rw [List.getD_eq_getElem _ _ hil]
          exact List.getElem_mem hil
        obtain ⟨hne, hnm⟩ := h _ hpart
        constructor
        · have : (List.take 1 (parts.getD i [])).length = 1 := by
            rw [List.length_take]
            omega
          intro he
          rw [he] at this
          simp at this
        · intro hmem
          exact hnm (List.take_subset 1 _ hmem)
    · exact ih parts (i + 1) h

theorem boldLastC_lastD :
    ∀ q, q ≠ [] → lastD (boldLastC q) = boldC (lastD q) := by
  intro q
  induction q with
  | nil => intro h; exact absurd rfl h
  | cons x xs ih =>
    intro _
    cases xs with
    | nil => rfl
    | cons y ys =>
      show lastD (x :: boldLastC (y :: ys)) = boldC (lastD (x :: y :: ys))
      have hb : boldLastC (y :: ys) ≠ [] := by
        cases ys <;> simp [boldLastC]
      rw [lastD_cons_ne x _ hb, lastD_cons_ne x (y :: ys) (by simp), ih (by simp)]

theorem boldLastC_length : ∀ q : List (List Char), (boldLastC q).length = q.length := by
  intro q
  induction q with
  | nil => rfl
  | cons x xs ih =>
    cases xs with
    | nil => rfl
    | cons y ys =>
      show (x :: boldLastC (y :: ys)).length = (x :: y :: ys).length
      simp only [List.length_cons]
      simpa using ih

theorem boldC_ne_nil (l : List Char) : boldC l ≠ [] := by
  simp [boldC, zero_width]

theorem boldC_no_slash (l : List Char) (h : '/' ∉ l) : '/' ∉ boldC l := by
  intro hm
  simp only [boldC, List.mem_append] at hm
  rcases hm with hm | hm
  · revert hm; decide
  · exact h hm

theorem boldLastC_props :
    ∀ q, (∀ x ∈ q, x ≠ [] ∧ '/' ∉ x) →
      ∀ x ∈ boldLastC q, x ≠ [] ∧ '/' ∉ x := by
  intro q
  induction q with
  | nil => intro _ x hx; simp [boldLastC] at hx
  | cons a xs ih =>
    intro h x hx
    cases xs with
    | nil =>
      simp only [boldLastC] at hx
      rcases List.mem_cons.mp hx with hx | hx
      · subst hx
        obtain ⟨_, hnm⟩ := h a (List.mem_cons_self a [])
        exact ⟨boldC_ne_nil a, boldC_no_slash a hnm⟩
      · simp at hx
    | cons y ys =>
      rcases List.mem_cons.mp hx with hx | hx
      · subst hx
        exact h x (List.mem_cons_self x (y :: ys))
      · exact ih (fun z hz => h z (List.mem_cons_of_mem a hz)) x hx

theorem filteredSplit_props (pc : List Char) :
    ∀ x ∈ (splitOnChar '/' pc).filter (· != []), x ≠ [] ∧ '/' ∉ x := by
  intro x hx
  rw [List.mem_filter] at hx
  refine ⟨by simpa using hx.2, splitOnChar_not_mem '/' pc x hx.1⟩

theorem shortenParts_props (hd pc : List Char) (m : Int) :
    ∀ x ∈ shortenParts hd pc m, x ≠ [] ∧ '/' ∉ x := by
  unfold shortenParts
  apply collapseGoC_props
  apply boldLastC_props
  exact filteredSplit_props (homedirStep hd pc)

/-- C5 (amended): the last segment is never collapsed: for every input
whose segment list is non-empty, the last slash-separated segment of the
shortened path is exactly the zero-width bold marker prepended to the last
non-empty segment of the home-directory-replaced input — bolded, never
collapsed to its first letter. -/
theorem c5_amended_last_segment_bolded_not_collapsed (hd p : String)
    (maxLen : Int)
    (hne : (splitOnChar '/' (homedirStep hd.data p.data)).filter (· != []) ≠ []) :
    lastSeg (shorten_path hd p maxLen) =
      boldC (lastD ((splitOnChar '/' (homedirStep hd.data p.data)).filter (· != []))) := by
  have hprops := shortenParts_props hd.data p.data maxLen
  have hq_ne : shortenParts hd.data p.data maxLen ≠ [] := by
    unfold shortenParts
    intro he
    have hl := congrArg List.length he
    rw [collapseGoC_length, boldLastC_length, List.length_nil] at hl
    exact hne (List.length_eq_zero.mp hl)
  unfold lastSeg shorten_path
  rw [show (String.mk (joinChars (shortenParts hd.data p.data maxLen))).data =
        joinChars (shortenParts hd.data p.data maxLen) from rfl]
  rw [split_join _ hprops hq_ne]
  unfold shortenParts
  rw [collapseGoC_lastD _ _ _ _ (by omega)]
  exact boldLastC_lastD _ hne

/-- C5 witness: for the path "/a/bc" the last segment of the output is the
bolded "bc". -/
theorem c5_amended_witness :
    (splitOnChar '/' (homedirStep "/home/u".data "/a/bc".data)).filter (· != []) ≠ [] ∧
      lastSeg (shorten_path "/home/u" "/a/bc" 70) =
        boldC (lastD ((splitOnChar '/' (homedirStep "/home/u".data "/a/bc".data)).filter (· != []))) :=
  ⟨by decide,
    c5_amended_last_segment_bolded_not_collapsed "/home/u" "/a/bc" 70 (by decide)⟩

theorem shorten_of_joined (hd : String) (maxLen : Int) (s : String)
    (q : List (List Char)) (hdata : s.data = joinChars q) (hqne : q ≠ [])
    (hprops : ∀ x ∈ q, x ≠ [] ∧ '/' ∉ x)
    (hh : homedirStep hd.data s.data = s.data)
    (hfit : ((joinChars (boldLastC q)).length : Int) ≤ maxLen) :
    shorten_path hd s maxLen = String.mk (joinChars (boldLastC q)) := by
  simp only [shorten_path, shortenParts]
  rw [hh, hdata, split_join q hprops hqne,
    List.filter_eq_self.mpr (fun x hx => by simpa using (hprops x hx).1),
    collapseGoC_of_le _ _ _ _ hfit]

/-- C4 (amended): path shortening is not idempotent: a second application
bolds the (already bolded) last segment again.  Whenever the once-shortened
path is not recaptured by the home-directory replacement and the re-bolded
join still fits the maximum (so the second pass collapses nothing), the
second application returns exactly the once-shortened path with one more
zero-width bold marker on its last segment. -/
theorem c4_amended_second_pass_rebolds (hd p : String) (maxLen : Int)
    (hh : homedirStep hd.data (shorten_path hd p maxLen).data =
      (shorten_path hd p maxLen).data)
    (hfit : ((joinChars (boldLastC (shortenParts hd.data p.data maxLen))).length : Int) ≤ maxLen) :
    shorten_path hd (shorten_path hd p maxLen) maxLen =
      String.mk (joinChars (boldLastC (shortenParts hd.data p.data maxLen))) := by
  have hprops := shortenParts_props hd.data p.data maxLen
  rcases hq : shortenParts hd.data p.data maxLen with _ | ⟨x, xs⟩
  · have hdata : (shorten_path hd p maxLen).data = [] := by
      simp only [shorten_path]
      rw [hq]
      rfl
    rw [hdata] at hh
    generalize hgen : shorten_path hd p maxLen = s1 at hdata
    simp only [shorten_path, shortenParts]
    rw [hdata, hh]
    rfl
  · rw [hq] at hprops hfit
    apply shorten_of_joined hd maxLen _ (x :: xs) _ (by simp) hprops hh hfit
    simp only [shorten_path]
    rw [hq]

/-- C4 witness: the second pass on "/a/b" reproduces the first result with
a doubled bold marker on the last segment. -/
theorem c4_amended_witness :
    homedirStep "/home/u".data (shorten_path "/home/u" "/a/b" 70).data =
        (shorten_path "/home/u" "/a/b" 70).data ∧
      ((joinChars (boldLastC (shortenParts "/home/u".data "/a/b".data 70))).length : Int) ≤ 70 ∧
      shorten_path "/home/u" (shorten_path "/home/u" "/a/b" 70) 70 =
        String.mk (joinChars (boldLastC (shortenParts "/home/u".data "/a/b".data 70))) :=
  ⟨by decide, by decide,
    c4_amended_second_pass_rebolds "/home/u" "/a/b" 70 (by decide) (by decide)⟩

-- Fuel irrelevance and concatenation lemmas for the two strip scans.

theorem stripAnsiF_congr :
    ∀ (f g : Nat) (l : List Char), l.length ≤ f → l.length ≤ g →
      stripAnsiF f l = stripAnsiF g l := by
  intro f
  induction f with
  | zero =>
    intro g l hf _
    have : l = [] := List.length_eq_zero.mp (by omega)
    subst this
    cases g <;> rfl
  | succ f ih =>
    intro g l hf hg
    cases l with
    | nil => cases g <;> rfl
    | cons c rest =>
      cases g with
      | zero => simp at hg
      | succ g =>
        simp only [stripAnsiF]
        by_cases hcond : c = '\x1b' ∧ rest.head? = some '['
        · rw [if_pos hcond, if_pos hcond]
          cases ht : takeAnsiBody rest.tail with
          | none =>
            simp only [List.length_cons] at hf hg
            show c :: stripAnsiF f rest = c :: stripAnsiF g rest
            rw [ih g rest (by omega) (by omega)]
          | some r' =>
            have hrest : rest ≠ [] := by
              intro he
              rw [he] at hcond
              simp at hcond
            have htl : rest.tail.length + 1 = rest.length := by
              cases rest with
              | nil => exact absurd rfl hrest
              | cons a t => simp
            have hlt := takeAnsiBody_length _ _ ht
            simp only [List.length_cons] at hf hg
            show stripAnsiF f r' = stripAnsiF g r'
            rw [ih g r' (by omega) (by omega)]
        · rw [if_neg hcond, if_neg hcond]
          simp only [List.length_cons] at hf hg
          rw [ih g rest (by omega) (by omega)]

theorem stripAnsiF_eq (f : Nat) (l : List Char) (h : l.length ≤ f) :
    stripAnsiF f l = stripAnsi l :=
  stripAnsiF_congr f l.length l h (le_refl _)

theorem stripAnsi_cons_safe (c : Char) (l : List Char)
    (h : ¬(c = '\x1b' ∧ l.head? = some '[')) :
    stripAnsi (c :: l) = c :: stripAnsi l := by
  show stripAnsiF (c :: l).length (c :: l) = _
  simp only [List.length_cons, stripAnsiF, if_neg h]
  rfl

theorem stripAnsi_append_noesc :
    ∀ (a l : List Char), '\x1b' ∉ a →
      stripAnsi (a ++ l) = a ++ stripAnsi l := by
  intro a
  induction a with
  | nil => intro l _; rfl
  | cons c a' ih =>
    intro l h
    have hc : c ≠ '\x1b' := fun hh => h (hh ▸ List.mem_cons_self c a')
    have ha : '\x1b' ∉ a' := fun hh => h (List.mem_cons_of_mem c hh)
    rw [List.cons_append, stripAnsi_cons_safe c _ (fun hh => hc hh.1),
      ih l ha, List.cons_append]

theorem stripAnsi_esc2 (d1 d2 : Char) (l : List Char)
    (h1 : d1.isDigit) (h2 : d2.isDigit) :
    stripAnsi ('\x1b' :: '[' :: d1 :: d2 :: 'm' :: l) = stripAnsi l := by
  have hd1 : ¬d1 = 'm' := by
    intro he; rw [he] at h1; exact absurd h1 (by decide)
  have hd2 : ¬d2 = 'm' := by
    intro he; rw [he] at h2; exact absurd h2 (by decide)
  have htk : takeAnsiBody (d1 :: d2 :: 'm' :: l) = some l := by
    simp only [takeAnsiBody, if_neg hd1, if_pos (by simp [h1] : (d1.isDigit || d1 = ';') = true),
      if_neg hd2, if_pos (by simp [h2] : (d2.isDigit || d2 = ';') = true)]
    simp
  show stripAnsiF (l.length + 5) ('\x1b' :: '[' :: d1 :: d2 :: 'm' :: l) = _
  simp only [stripAnsiF]
  rw [if_pos (⟨trivial, rfl⟩ : True ∧ ('[' :: d1 :: d2 :: 'm' :: l).head? = some '['),
    show ('[' :: d1 :: d2 :: 'm' :: l).tail = d1 :: d2 :: 'm' :: l from rfl, htk]
  show stripAnsiF (l.length + 4) l = stripAnsi l
  exact stripAnsiF_eq _ l (by omega)

theorem stripAnsi_zwfg (X : Color) (l : List Char) :
    stripAnsi ((zero_width (fgCode X)).data ++ l) =
      '%' :: '\x7b' :: '%' :: '\x7d' :: stripAnsi l := by
  obtain ⟨d, hd, he⟩ : ∃ d, d.isDigit ∧ (fgCode X).data = ['\x1b', '[', '3', d, 'm'] := by
    cases X
    exacts [⟨'0', by decide, rfl⟩, ⟨'1', by decide, rfl⟩, ⟨'2', by decide, rfl⟩,
      ⟨'3', by decide, rfl⟩, ⟨'4', by decide, rfl⟩, ⟨'5', by decide, rfl⟩,
      ⟨'6', by decide, rfl⟩, ⟨'7', by decide, rfl⟩]
  have hz : (zero_width (fgCode X)).data =
      ['%', '\x7b'] ++ ('\x1b' :: '[' :: '3' :: d :: 'm' :: ('%' :: '\x7d' :: [])) := by
    simp only [zero_width, String.data_append, he]
    rfl
  rw [hz, List.append_assoc]
  rw [stripAnsi_append_noesc ['%', '\x7b'] _ (by decide)]
  rw [show ('\x1b' :: '[' :: '3' :: d :: 'm' :: ('%' :: '\x7d' :: [])) ++ l =
    '\x1b' :: '[' :: '3' :: d :: 'm' :: ('%' :: '\x7d' :: l) from rfl]
  rw [stripAnsi_esc2 '3' d _ (by decide) hd]
  rw [show ('%' :: '\x7d' :: l) = ['%', '\x7d'] ++ l from rfl]
  rw [stripAnsi_append_noesc ['%', '\x7d'] _ (by decide)]
  rfl

theorem stripZWF_congr :
    ∀ (f g : Nat) (l : List Char), l.length ≤ f → l.length ≤ g →
      stripZWF f l = stripZWF g l := by
  intro f
  induction f with
  | zero =>
    intro g l hf _
    have : l = [] := List.length_eq_zero.mp (by omega)
    subst this
    cases g <;> rfl
  | succ f ih =>
    intro g l hf hg
    cases l with
    | nil => cases g <;> rfl
    | cons c rest =>
      cases g with
      | zero => simp at hg
      | succ g =>
        simp only [stripZWF]
        by_cases hcond : c = '%' ∧ rest.head? = some '\x7b'
        · rw [if_pos hcond, if_pos hcond]
          cases ht : findZWEnd rest.tail with
          | none =>
            simp only [List.length_cons] at hf hg
            show c :: stripZWF f rest = c :: stripZWF g rest
            rw [ih g rest (by omega) (by omega)]
          | some r' =>
            have hrest : rest ≠ [] := by
              intro he
              rw [he] at hcond
              simp at hcond
            have htl : rest.tail.length + 1 = rest.length := by
              cases rest with
              | nil => exact absurd rfl hrest
              | cons a t => simp
            have hlt := findZWEnd_length _ _ ht
            simp only [List.length_cons] at hf hg
            show stripZWF f r' = stripZWF g r'
            rw [ih g r' (by omega) (by omega)]
        · rw [if_neg hcond, if_neg hcond]
          simp only [List.length_cons] at hf hg
          rw [ih g rest (by omega) (by omega)]

theorem stripZWF_eq (f : Nat) (l : List Char) (h : l.length ≤ f) :
    stripZWF f l = stripZW l :=
  stripZWF_congr f l.length l h (le_refl _)

theorem stripZW_cons_safe (c : Char) (l : List Char)
    (h : ¬(c = '%' ∧ l.head? = some '\x7b')) :
    stripZW (c :: l) = c :: stripZW l := by
  show stripZWF (c :: l).length (c :: l) = _
  simp only [List.length_cons, stripZWF, if_neg h]
  rfl

theorem stripZW_marker_cons (l : List Char) :
    stripZW ('%' :: '\x7b' :: '%' :: '\x7d' :: l) = stripZW l := by
  have hf : findZWEnd ('%' :: '\x7d' :: l) = some l := by
    simp only [findZWEnd]
    rw [if_neg (by decide), if_pos (⟨trivial, rfl⟩ : True ∧ ('\x7d' :: l).head? = some '\x7d')]
    rfl
  show stripZWF (l.length + 4) ('%' :: '\x7b' :: '%' :: '\x7d' :: l) = _
  simp only [stripZWF]
  rw [if_pos (⟨trivial, rfl⟩ : True ∧ ('\x7b' :: '%' :: '\x7d' :: l).head? = some '\x7b'),
    show ('\x7b' :: '%' :: '\x7d' :: l).tail = '%' :: '\x7d' :: l from rfl, hf]
  show stripZWF (l.length + 3) l = stripZW l
  exact stripZWF_eq _ l (by omega)

theorem stripZW_append_marker :
    ∀ (mid : List Char), hasZWOpen mid = false →
      stripZW (mid ++ '%' :: '\x7b' :: '%' :: '\x7d' :: []) = mid := by
  intro mid
  induction mid with
  | nil => intro _; decide
  | cons c mid' ih =>
    intro h
    simp only [hasZWOpen] at h
    by_cases hc : c = '%' ∧ mid'.head? = some '\x7b'
    · rw [if_pos hc] at h
      exact absurd h (by decide)
    · rw [if_neg hc] at h
      have hcond : ¬(c = '%' ∧
          (mid' ++ '%' :: '\x7b' :: '%' :: '\x7d' :: []).head? = some '\x7b') := by
        cases mid' with
        | nil =>
          intro hx
          rw [List.nil_append] at hx
          exact absurd hx.2 (by decide)
        | cons d mid'' =>
          intro hx
          apply hc
          refine ⟨hx.1, ?_⟩
          have h2 := hx.2
          rw [List.cons_append] at h2
          simpa using h2
      rw [List.cons_append, stripZW_cons_safe c _ hcond, ih h]

/-- C9 (amended): for a non-empty string that contains no escape character
and no zero-width opening marker, foreground styling preserves the
printable width: the styled string strips back to exactly the original
characters.  (Without these conditions the claim fails, see the
counterexample: a stray opening marker in the text captures the closing of
the styling wrapper.) -/
theorem c9_amended_styling_preserves_width (s : String) (X : Color)
    (hs : s ≠ "") (hesc : '\x1b' ∉ s.data)
    (hzw : hasZWOpen s.data = false) :
    printable_length (style s (some X) none false false false) = s.length := by
  have hdata : (style s (some X) none false false false).data =
      (zero_width (fgCode X)).data ++ (s.data ++ (zero_width "\x1b[0m").data) := by
    simp [style, hs, resetStyled, foregroundStyled, String.data_append,
      List.append_assoc]
  unfold printable_length
  rw [hdata, stripAnsi_zwfg, stripAnsi_append_noesc s.data _ hesc,
    show stripAnsi (zero_width "\x1b[0m").data =
      '%' :: '\x7b' :: '%' :: '\x7d' :: [] from by decide,
    stripZW_marker_cons, stripZW_append_marker s.data hzw]
  rfl

/-- C9 witness: a plain five-character string keeps width 5 under
styling. -/
theorem c9_amended_witness :
    ("hello" : String) ≠ "" ∧ '\x1b' ∉ ("hello" : String).data ∧
      hasZWOpen ("hello" : String).data = false ∧
      printable_length (style "hello" (some red) none false false false) =
        ("hello" : String).length :=
  ⟨by decide, by decide, by decide,
    c9_amended_styling_preserves_width "hello" red (by decide) (by decide)
      (by decide)⟩

-- The assembler consumes the dictionaries it renders.

theorem asmGo_snd_valid (side : String)
    (hside : side = "left" ∨ side = "right") :
    ∀ (l : List Part) (n i : Nat) (A : String) (lb : Option Color),
      (asmGo side n i A lb l).2 = l.map consumePart := by
  intro l
  induction l with
  | nil => intro n i A lb; rfl
  | cons p rest ih =>
    intro n i A lb
    simp only [asmGo]
    by_cases hA : A = ""
    · rw [if_pos hA]
      dsimp only
      rw [ih, List.map_cons]
    · rw [if_neg hA]
      rcases hside with hs | hs
      · rw [if_pos hs]
        dsimp only
        rw [ih, List.map_cons]
      · have hne : ¬side = "left" := by rw [hs]; decide
        rw [if_neg hne, if_pos hs]
        dsimp only
        rw [ih, List.map_cons]

theorem mergeBack_map :
    ∀ parts : List Part,
      mergeBack parts ((parts.filter (fun p => truthy p.text)).map consumePart) =
        parts.map (fun p => if truthy p.text then consumePart p else p) := by
  intro parts
  induction parts with
  | nil => rfl
  | cons p ps ih =>
    by_cases ht : truthy p.text
    · simp [List.filter_cons, ht, mergeBack, ih]
    · simp [List.filter_cons, ht, mergeBack, ih]

/-- C10: the assembler destructively consumes its input: with a valid side,
every part with truthy text comes back with its text, foreground and
background keys popped (the rest untouched), and assembling the returned
list a second time yields the empty string. -/
theorem c10_assembler_consumes (parts : List Part) (side : String)
    (hside : side = "left" ∨ side = "right") :
    ((parts_assembler parts side).2 =
        parts.map (fun p => if truthy p.text then consumePart p else p)) ∧
      (parts_assembler (parts_assembler parts side).2 side).1 = .ok "" := by
  have hsnd : (parts_assembler parts side).2 =
      parts.map (fun p => if truthy p.text then consumePart p else p) := by
    show mergeBack parts (asmGo side _ 0 "" none
      (parts.filter (fun p => truthy p.text))).2 = _
    rw [asmGo_snd_valid side hside, mergeBack_map]
  refine ⟨hsnd, ?_⟩
  rw [hsnd]
  have hfil : ((parts.map (fun p => if truthy p.text then consumePart p else p)).filter
      (fun p => truthy p.text)) = [] := by
    rw [List.filter_eq_nil_iff]
    intro a ha
    rw [List.mem_map] at ha
    obtain ⟨q, _, hq⟩ := ha
    subst hq
    by_cases ht : truthy q.text
    · rw [if_pos ht]
      simp [consumePart, truthy]
    · rw [if_neg ht]
      simpa using ht
  show ((asmGo side _ 0 "" none _).1, _).1 = .ok ""
  rw [hfil]
  rfl

/-- C10 witness: a concrete assembly consumes its parts and a re-assembly
over the consumed records is empty. -/
theorem c10_assembler_consumes_witness :
    (("left" : String) = "left" ∨ ("left" : String) = "right") ∧
      ((parts_assembler [vUser, vVcs, vVenv] "left").2 =
          [vUser, vVcs, vVenv].map
            (fun p => if truthy p.text then consumePart p else p) ∧
        (parts_assembler (parts_assembler [vUser, vVcs, vVenv] "left").2 "left").1 =
          .ok "") :=
  ⟨Or.inl rfl, c10_assembler_consumes [vUser, vVcs, vVenv] "left" (Or.inl rfl)⟩

-- The layout arithmetic of `bash_prompt`.

theorem spacerStr_length_of_nonneg (w : Int) (h : 0 ≤ w) :
    ((spacerStr w).length : Int) = w := by
  show ((List.replicate w.toNat SPACER).length : Int) = w
  rw [List.length_replicate, Int.toNat_of_nonneg h]

/-- C2: for the layout computed by `bash_prompt` (terminal width made
explicit): the final gap always equals the width minus the printable
lengths of the two final sides minus one; when the width accommodates both
sides plus one, the emitted spacer has exactly that length; and when the
first gap is negative, the left side is the one rebuilt from the original
path text with maximum length printable-length-of-path-text plus gap minus
two, the gap being recomputed exactly once. -/
theorem c2_layout_spacer (homedir : String) (parts : BashParts)
    (width : Int) (L : BashLayout)
    (h : bashPromptCore homedir parts width = .ok L) :
    (L.space = width - (printable_length L.left : Int) -
        printable_length L.right - 1) ∧
      (width ≥ (printable_length L.left : Int) + printable_length L.right + 1 →
        ((spacerStr L.space).length : Int) =
          width - (printable_length L.left : Int) - printable_length L.right - 1) ∧
      (L.space0 < 0 →
        (parts_assembler
          [parts.user,
           get_path homedir ((parts.path.text.getD "").drop 2)
             ((printable_length ((parts.path.text.getD "").drop 2) : Int) +
               L.space0 - 2),
           parts.vcs] "left").1 = .ok L.left) := by
  unfold bashPromptCore at h
  dsimp only at h
  split at h
  · exact absurd h (by simp)
  · split at h
    · exact absurd h (by simp)
    · split at h
      · -- overflow branch
        split at h
        · exact absurd h (by simp)
        · rename_i left0 heq0 right0 heqR hneg left1 heq1
          rw [Except.ok.injEq] at h
          subst h
          refine ⟨by dsimp only; omega, ?_, ?_⟩
          · intro hge
            dsimp only at hge ⊢
            rw [spacerStr_length_of_nonneg _ (by omega)]
            omega
          · intro _
            exact heq1
      · -- no-overflow branch
        rename_i left0 heq0 right0 heqR hnneg
        rw [Except.ok.injEq] at h
        subst h
        refine ⟨by dsimp only; omega, ?_, ?_⟩
        · intro hge
          dsimp only at hge ⊢
          rw [spacerStr_length_of_nonneg _ (by omega)]
          omega
        · intro hneg
          dsimp only at hneg
          omega

/-- C2 witness: a width-50 terminal with a long path: the first gap is
negative, the rebuilt left side fits, and the emitted spacer length matches
the recomputed gap. -/
theorem c2_layout_spacer_witness :
    bashPromptCore "/home/u" vPartsOverflow 50 =
        .ok (layoutOf "/home/u" vPartsOverflow 50) ∧
      (layoutOf "/home/u" vPartsOverflow 50).space0 < 0 ∧
      (50 : Int) ≥
        (printable_length (layoutOf "/home/u" vPartsOverflow 50).left : Int) +
          printable_length (layoutOf "/home/u" vPartsOverflow 50).right + 1 ∧
      ((spacerStr (layoutOf "/home/u" vPartsOverflow 50).space).length : Int) =
        50 - (printable_length (layoutOf "/home/u" vPartsOverflow 50).left : Int) -
          printable_length (layoutOf "/home/u" vPartsOverflow 50).right - 1 ∧
      (parts_assembler
        [vPartsOverflow.user,
         get_path "/home/u" ((vPartsOverflow.path.text.getD "").drop 2)
           ((printable_length ((vPartsOverflow.path.text.getD "").drop 2) : Int) +
             (layoutOf "/home/u" vPartsOverflow 50).space0 - 2),
         vPartsOverflow.vcs] "left").1 =
        .ok (layoutOf "/home/u" vPartsOverflow 50).left :=
  ⟨by decide, by decide, by decide,
    (c2_layout_spacer "/home/u" vPartsOverflow 50 _ (by decide)).2.1 (by decide),
    (c2_layout_spacer "/home/u" vPartsOverflow 50 _ (by decide)).2.2 (by decide)⟩

end Prompt
